import Mathlib

/-!
Verification of the sitkin static-site generator's build pipeline
(load / copy-with-content-addressing / render), shallowly embedded from
the Go source (the most complete variant of sitkin.go).  File contents
and path names are modelled as Lean strings; external collaborators
(template parsing and execution, markdown rendering, HTML minification,
the sha256-based content hash, and the stdlib glob matcher) are passed
in as abstract total functions, exactly as the spec treats them.
-/

namespace Sitkin

/-! ## Basic string helpers (over the character list of a string) -/

/-- Prefix test on strings, via the underlying character lists
(strings.HasPrefix). -/
def strStartsWith (s p : String) : Bool :=
  p.data.isPrefixOf s.data

/-- Suffix test on strings (strings.HasSuffix). -/
def strEndsWith (s p : String) : Bool :=
  p.data.isSuffixOf s.data

/-- strings.TrimSuffix: drop the suffix when present, else return the
string unchanged. -/
def strTrimSuffix (s p : String) : String :=
  if strEndsWith s p then ⟨s.data.take (s.data.length - p.data.length)⟩ else s

/-- Join a directory and a base name with a slash; an empty directory
stands for the project root. -/
def joinDir (d n : String) : String :=
  if d = "" then n else d ++ "/" ++ n

/-! ## Markdown metadata splitter (loadMarkdownMetadata)

The Go function reads the file, strips an optional leading JSON
metadata block delimited by the HTML comment markers, and parses the
remainder as a text template.  We embed the byte-level splitting; JSON
decoding and template parsing are external collaborators. -/

/-- The opening metadata marker. -/
def beginMarker : List Char := ['<', '!', '-', '-']

/-- The closing metadata marker. -/
def endMarker : List Char := ['-', '-', '>']

/-- Index of the first occurrence of pat in s (bytes.Index), or none. -/
def idxOf : List Char → List Char → Option Nat
  | [], pat => if pat.isEmpty then some 0 else none
  | c :: rest, pat =>
    if pat.isPrefixOf (c :: rest) then some 0
    else (idxOf rest pat).map (· + 1)

/-- Whether pat occurs anywhere in s. -/
def hasSubstr (s pat : List Char) : Bool :=
  (idxOf s pat).isSome

/-- The error message for a missing closing marker. -/
def noClosingErr : String := "no closing " ++ ⟨endMarker⟩ ++ " to end metadata"

/-- Drop a single leading newline when one is present (the check
len(b) > 0 && b[0] == the newline byte after the closing marker). -/
def stripLeadingNewline : List Char → List Char
  | '\n' :: r => r
  | rest => rest

/-- loadMarkdownMetadata's byte manipulation: if the contents start with
the opening marker, the text up to the first closing marker is the raw
metadata (handed to the JSON decoder), the marker itself and at most one
immediately following newline are dropped, and the rest is the body.
Without the opening marker the whole input is the body. -/
def splitMetadata (b : List Char) : Except String (Option (List Char) × List Char) :=
  if beginMarker.isPrefixOf b then
    match idxOf (b.drop beginMarker.length) endMarker with
    | none => .error noClosingErr
    | some i =>
      .ok (some ((b.drop beginMarker.length).take i),
        stripLeadingNewline
          ((b.drop beginMarker.length).drop (i + endMarker.length)))
  else
    .ok (none, b)

/-! ## Path helpers (path.Ext, filepath.Base) -/

/-- Scan a reversed character list for the extension: stop at a slash
(no extension) or a dot (extension found), accumulating the scanned
suffix. -/
def extAux : List Char → List Char → String
  | [], _ => ""
  | '/' :: _, _ => ""
  | '.' :: _, acc => ⟨'.' :: acc⟩
  | c :: rest, acc => extAux rest (c :: acc)

/-- path.Ext and filepath.Ext: the suffix of the final path element
starting at its last dot, or the empty string. -/
def goExt (s : String) : String :=
  extAux s.data.reverse []

/-- Take the final path element, scanning the reversed characters up to
the first slash. -/
def baseAux : List Char → List Char → List Char
  | [], acc => acc
  | '/' :: _, acc => acc
  | c :: rest, acc => baseAux rest (c :: acc)

/-- filepath.Base restricted to the non-empty slash-free-suffix case,
which is the only way loadCopyFiles uses it. -/
def goBase (s : String) : String :=
  ⟨baseAux s.data.reverse []⟩

/-! ## Content-addressing copy decision (loadCopyFiles, per file)

The walk closure in loadCopyFiles decides, for every file that survived
the ignore globs, whether to insert a content token into its destination
name and whether to record a hash-asset mapping.  The stdlib glob
matcher path.Match is abstracted as the parameter matchGlob; the sha256
based fileHash is abstracted as the parameter hashF over the file's
contents. -/

/-- A file scheduled for copying: source path and destination path,
both relative to their roots (struct copyFile). -/
structure CopyFile where
  srcPath : String
  dstPath : String
  deriving DecidableEq

/-- Whether a copy candidate gets a content token in its name: true
unless the extension is .html or empty, or a no-hash glob matches the
slash-normalized relative path. -/
def shouldHash (matchGlob : String → String → Bool) (noHash : List String)
    (relpath : String) : Bool :=
  !(goExt relpath == ".html" || goExt relpath == "") &&
    !(noHash.any fun glob => matchGlob glob relpath)

/-- The per-file body of the loadCopyFiles walk closure: build the copy
record and, when the file is hash-named, the hash-asset pair.  In dev
mode the token is the constant NOHASH; otherwise it is the content hash
of the file's bytes. -/
def copyDecision (matchGlob : String → String → Bool) (noHash : List String)
    (devMode : Bool) (hashF : String → String) (relpath contents : String) :
    CopyFile × Option (String × String) :=
  if shouldHash matchGlob noHash relpath then
    let h := if devMode then "NOHASH" else hashF contents
    let ext := goExt (goBase relpath)
    let dst := strTrimSuffix relpath ext ++ "." ++ h ++ ext
    (⟨relpath, dst⟩, some ("/" ++ relpath, "/" ++ dst))
  else
    (⟨relpath, relpath⟩, none)

/-- The chain of directory relpaths leading to a relpath, the relpath
itself included: the walk matches every directory on the way against the
ignore globs and skips the whole subtree on a match (filepath.SkipDir),
so a file is ignored exactly when one of these matches an ignore glob. -/
def ancestors (relpath : String) : List String :=
  let parts := relpath.splitOn "/"
  (List.range parts.length).map fun i =>
    String.intercalate "/" (parts.take (i + 1))

/-- Whether the walk drops a file: it or an ancestor directory matches
an ignore glob. -/
def ignoredPath (matchGlob : String → String → Bool) (ignore : List String)
    (relpath : String) : Bool :=
  (ancestors relpath).any fun p => ignore.any fun glob => matchGlob glob p

/-! ## Top-level classification (the switch in load)

Each immediate child of the project root is classified by its name
alone: the fixed names sitkin and gen, dot-prefixed names and declared
file-set names are skipped, a .tmpl suffix makes a template, .tpl a text
template, .md a markdown file, and everything else a copy candidate. -/

/-- Parsed config.json: ignore globs, no-hash globs, file-set names. -/
structure Config where
  ignore : List String
  noHash : List String
  fileSets : List String
  deriving DecidableEq

/-- The classification outcome for a top-level directory entry. -/
inductive EntryClass where
  | skip
  | tmpl
  | textTmpl
  | markdown
  | copy
  deriving DecidableEq

/-- The first case of the load switch: the entry names the template
directory or the output directory exactly, starts with a dot, or names
a declared file set. -/
def skipName (cfg : Config) (name : String) : Prop :=
  name = "sitkin" ∨ name = "gen" ∨ strStartsWith name "." = true ∨
    name ∈ cfg.fileSets

instance (cfg : Config) (name : String) : Decidable (skipName cfg name) := by
  unfold skipName; infer_instance

/-- The load switch over a top-level entry's base name. -/
def classify (cfg : Config) (name : String) : EntryClass :=
  if skipName cfg name then
    .skip
  else if strEndsWith name ".tmpl" then .tmpl
  else if strEndsWith name ".tpl" then .textTmpl
  else if strEndsWith name ".md" then .markdown
  else .copy

/-! ## Date parsing (time.Parse with layout 2006-01-02)

The layout demands a four-digit year, a dash, a two-digit month, a
dash and a two-digit day, with nothing left over; the month must lie in
1..12 and the day in 1..daysIn(month, year).  A parsed date is encoded
as the natural number y*10000 + m*100 + d, which is strictly monotone in
the calendar order, so Go's Time.After is the > of the encodings. -/

/-- Decimal digit value of an ASCII digit character. -/
def digitVal (c : Char) : Nat := c.toNat - 48

/-- Gregorian leap-year rule. -/
def isLeap (y : Nat) : Bool :=
  y % 4 == 0 && (y % 100 != 0 || y % 400 == 0)

/-- Days in a month, February depending on the leap rule. -/
def daysIn (y m : Nat) : Nat :=
  if m = 2 then (if isLeap y then 29 else 28)
  else if m = 4 ∨ m = 6 ∨ m = 9 ∨ m = 11 then 30
  else 31

/-- Parse a calendar date in the fixed 2006-01-02 layout into its
numeric encoding, or fail. -/
def parseDate (s : String) : Option Nat :=
  match s.data with
  | [y1, y2, y3, y4, '-', m1, m2, '-', d1, d2] =>
    if (y1.isDigit && y2.isDigit && y3.isDigit && y4.isDigit &&
        m1.isDigit && m2.isDigit && d1.isDigit && d2.isDigit) then
      let y := ((digitVal y1 * 10 + digitVal y2) * 10 + digitVal y3) * 10 +
        digitVal y4
      let m := digitVal m1 * 10 + digitVal m2
      let d := digitVal d1 * 10 + digitVal d2
      if 1 ≤ m ∧ m ≤ 12 ∧ 1 ≤ d ∧ d ≤ daysIn y m then
        some (y * 10000 + m * 100 + d)
      else none
    else none
  | _ => none

/-! ## File-set loading (loadFileSet) -/

/-- strings.SplitN(s, ".", 2): split at the first dot; none when the
string holds no dot (SplitN then returns a single part). -/
def splitFirstDot : List Char → Option (List Char × List Char)
  | [] => none
  | '.' :: rest => some ([], rest)
  | c :: rest => (splitFirstDot rest).map fun p => (c :: p.1, p.2)

/-- A directory entry as returned by os.ReadDir: base name and the
directory bit. -/
structure DirEnt where
  name : String
  isDir : Bool
  deriving DecidableEq

/-- A loaded markdown file (struct markdownFile): entry name, the
attached template's source, the metadata text, the body (the markdown
template text), the encoded date, and the rendered HTML fragment, which
stays empty until the render phase. -/
structure MDFile where
  name : String
  tmpl : String
  meta : Option String
  body : String
  dateKey : Nat
  rendered : String
  deriving DecidableEq

/-- A loaded file set (struct fileSet): directory base name, entries
sorted newest first, and the newest date. -/
structure FileSetM where
  name : String
  files : List MDFile
  lastDate : Nat
  deriving DecidableEq

/-- Extract, from a file-set directory entry, the entry name and the
encoded date, exactly when the loop in loadFileSet accepts the file:
not a directory, a .md suffix, a dot separating a date part, and a
parseable date. -/
def entInfo (e : DirEnt) : Option (String × Nat) :=
  if e.isDir then none
  else if !strEndsWith e.name ".md" then none
  else
    match splitFirstDot (strTrimSuffix e.name ".md").data with
    | none => none
    | some (datePart, namePart) =>
      match parseDate ⟨datePart⟩ with
      | none => none
      | some key => some (⟨namePart⟩, key)

/-- The warning loadFileSet logs when it skips an entry (the entry must
be one it skips for the message to be meaningful). -/
def skipWarning (dirPath : String) (e : DirEnt) : String :=
  let pth := joinDir dirPath e.name
  if e.isDir then "Warning: ignoring unexpected dir " ++ pth
  else if !strEndsWith e.name ".md" then
    "Warning: ignoring unexpected file " ++ pth
  else
    match splitFirstDot (strTrimSuffix e.name ".md").data with
    | none =>
      "Warning: ignoring strangely-named file " ++ pth ++
        " (name is missing date)"
    | some (datePart, _) =>
      "Warning: ignoring strangely-named file " ++ pth ++
        " (invalid date \"" ++ ⟨datePart⟩ ++ "\")"

/-- The duplicate-entry error message. -/
def dupErr (name : String) : String :=
  "duplicate name (" ++ name ++ ") in file set"

/-- The error message wrapping a metadata failure for a file. -/
def mdLoadErr (pth err : String) : String :=
  "error loading markdown file " ++ pth ++ ": " ++ err

/-- The loop state of loadFileSet: warnings logged so far, and either a
fatal error or the names seen and the files collected. -/
abbrev FSState := List String × Except String (List String × List MDFile)

/-- One iteration of the loadFileSet loop over a directory entry:
skip (with a warning) entries failing the naming pattern, fail on a
metadata error or a duplicate entry name, and otherwise collect the
file.  An already failed state passes through untouched (Go returns
right away). -/
def fsStep (contents : String → String) (dirPath tmplSrc : String)
    (st : FSState) (e : DirEnt) : FSState :=
  match st.2 with
  | .error _ => st
  | .ok (names, files) =>
    match entInfo e with
    | none => (st.1 ++ [skipWarning dirPath e], st.2)
    | some (nm, key) =>
      let pth := joinDir dirPath e.name
      match splitMetadata (contents pth).data with
      | .error err => (st.1, .error (mdLoadErr pth err))
      | .ok (meta, body) =>
        if nm ∈ names then (st.1, .error (dupErr nm))
        else
          (st.1, .ok (names ++ [nm],
            files ++ [{ name := nm, tmpl := tmplSrc,
                        meta := meta.map fun l => (⟨l⟩ : String),
                        body := ⟨body⟩, dateKey := key,
                        rendered := "" }]))

/-- The loadFileSet loop over all directory entries. -/
def fsFold (contents : String → String) (dirPath tmplSrc : String)
    (ents : List DirEnt) : FSState :=
  ents.foldl (fsStep contents dirPath tmplSrc) ([], .ok ([], []))

/-- Newest-first comparison used to sort a file set's entries
(sort.Slice with Date.After as the less function). -/
def entryGE (a b : MDFile) : Prop := b.dateKey ≤ a.dateKey

instance : DecidableRel entryGE := fun a b => Nat.decLe b.dateKey a.dateKey

instance : IsTotal MDFile entryGE :=
  ⟨fun a b => Nat.le_total b.dateKey a.dateKey⟩

instance : IsTrans MDFile entryGE :=
  ⟨fun _ _ _ h1 h2 => Nat.le_trans h2 h1⟩

/-- loadFileSet: run the loop, then sort the collected files newest
first and take the newest date, keeping the warnings either way. -/
def loadFileSet (contents : String → String) (dirPath tmplSrc : String)
    (ents : List DirEnt) : List String × Except String FileSetM :=
  ((fsFold contents dirPath tmplSrc ents).1,
    (fsFold contents dirPath tmplSrc ents).2.map fun p =>
      { name := goBase dirPath, files := p.2.insertionSort entryGE,
        lastDate := match p.2.insertionSort entryGE with
          | [] => 0
          | f :: _ => f.dateKey })

/-! ## Template attachment for top-level markdown files (load) -/

/-- Association-list lookup standing for Go map indexing. -/
def lookupStr (l : List (String × String)) (k : String) : Option String :=
  match l.find? fun p => p.1 == k with
  | some p => some p.2
  | none => none

/-- The markdown case of load's classification switch: attach the
same-named template when the registry holds one (and mark it used by
dropping it from the unused set), else silently attach the default
template.  No failure is possible here. -/
def attachMdTemplate (templates : List (String × String))
    (defaultTmpl : String) (unused : List String) (name : String) :
    String × List String :=
  let base := strTrimSuffix name ".md"
  match lookupStr templates base with
  | some t => (t, unused.erase base)
  | none => (defaultTmpl, unused)

/-! ## The whole-build model (load, render, build)

The filesystem is modelled as total lookup functions plus raw directory
enumerations; os.ReadDir and filepath.Glob sort their results and
filepath.Walk visits names in sorted order, so the build model sorts
every raw enumeration before using it.  Template parsing and execution,
markdown rendering, HTML minification, the content hash and the glob
matcher are abstract total functions (the spec's external
collaborators); their parse and I/O failures are outside the model. -/

/-- The project filesystem: directory bits, file contents, per-directory
raw enumerations, and per-path raw recursive file enumerations (the
files filepath.Walk reaches), all keyed by root-relative paths. -/
structure FS where
  isDir : String → Bool
  contents : String → String
  dirList : String → List String
  walkList : String → List String

/-- The common template context (struct context combined with the
per-page markdown file). -/
structure Ctx where
  devMode : Bool
  fileSets : List FileSetM
  page : Option MDFile

/-- The abstract collaborators: content hash, glob matcher, HTML and
text template execution (against a context, or against nil data for the
markdown pre-pass), markdown rendering and HTML minification. -/
structure Collab where
  hashF : String → String
  matchGlob : String → String → Bool
  execHtml : String → Ctx → String
  execTextNil : String → String
  execTextCtx : String → Ctx → String
  renderMd : String → String
  minifyH : String → String

/-- Executable lexicographic comparison of character lists: the
byte-wise filename order os.ReadDir, filepath.Glob and filepath.Walk
sort by. -/
def dataLeB : List Char → List Char → Bool
  | [], _ => true
  | _ :: _, [] => false
  | a :: as, b :: bs =>
    if a < b then true
    else if b < a then false
    else dataLeB as bs

/-- The name order on strings used for directory enumerations. -/
def strLe (a b : String) : Prop := dataLeB a.data b.data = true

instance : DecidableRel strLe := fun a b => by
  unfold strLe; infer_instance

/-- Sort a raw directory enumeration by name, as os.ReadDir,
filepath.Glob and filepath.Walk do. -/
def sortStrings (l : List String) : List String :=
  l.insertionSort strLe

/-- Build directory entries for a directory from its (already sorted)
listing and the directory bits. -/
def mkEnts (isDir : String → Bool) (listing : List String) (d : String) :
    List DirEnt :=
  listing.map fun n => ⟨n, isDir (joinDir d n)⟩

/-- Whether the metadata splitter succeeds on a file-set entry's
contents (only relevant for entries passing the naming pattern). -/
def metaOk (contents : String → String) (dirPath : String) (e : DirEnt) : Prop :=
  (entInfo e).isSome = true →
    (splitMetadata (contents (joinDir dirPath e.name)).data).isOk = true

instance (contents : String → String) (dirPath : String) (e : DirEnt) :
    Decidable (metaOk contents dirPath e) := by
  unfold metaOk; infer_instance

/-- The template registry built from the sitkin directory's (sorted)
listing: the default template plus one entry per other .tmpl file,
keyed by base name without the extension. -/
def mkRegistry (contents : String → String) (sitkinList : List String) :
    List (String × String) :=
  ("default", contents "sitkin/default.tmpl") ::
    (((sitkinList.filter fun n => strEndsWith n ".tmpl").filter
        fun n => ¬n = "default.tmpl").map
      fun n => (strTrimSuffix n ".tmpl", contents ("sitkin/" ++ n)))

/-- The fully loaded project model (struct sitkin). -/
structure SitkinM where
  devMode : Bool
  fileSets : List FileSetM
  templateFiles : List (String × String)
  textTemplateFiles : List (String × String)
  markdownFiles : List MDFile
  copyFiles : List CopyFile
  hashAssets : List (String × String)

/-- Load every declared file set in order, requiring a same-named
template for each and failing on the first file-set error. -/
def loadFileSetsM (contents : String → String) (isDir : String → Bool)
    (dirListS : String → List String) (registry : List (String × String)) :
    List String → Except String (List FileSetM)
  | [] => .ok []
  | n :: rest =>
    match lookupStr registry n with
    | none => .error ("no template for file set " ++ n)
    | some t =>
      match (loadFileSet contents n t (mkEnts isDir (dirListS n) n)).2 with
      | .error e => .error e
      | .ok fs => (loadFileSetsM contents isDir dirListS registry rest).map (fs :: ·)

/-- The accumulator of the top-level classification loop. -/
structure LoadAcc where
  templateFiles : List (String × String)
  textTemplateFiles : List (String × String)
  markdownFiles : List MDFile
  copyFiles : List CopyFile
  hashAssets : List (String × String)
  unused : List String

/-- One step of the classification loop: dispatch on the classification
of the entry's name alone; the copy case walks the subtree, drops
ignored files, and applies the per-file copy decision. -/
def classStep (C : Collab) (cfg : Config) (contents : String → String)
    (walkListS : String → List String)
    (registry : List (String × String)) (defaultSrc : String) (dev : Bool)
    (acc : LoadAcc) (name : String) : LoadAcc :=
  match classify cfg name with
  | .skip => acc
  | .tmpl =>
    { acc with templateFiles :=
        acc.templateFiles ++ [(strTrimSuffix name ".tmpl", contents name)] }
  | .textTmpl =>
    { acc with textTemplateFiles :=
        acc.textTemplateFiles ++ [(strTrimSuffix name ".tpl", contents name)] }
  | .markdown =>
    let r := attachMdTemplate registry defaultSrc acc.unused name
    { acc with
      markdownFiles := acc.markdownFiles ++
        [{ name := strTrimSuffix name ".md", tmpl := r.1, meta := none,
           body := contents name, dateKey := 0, rendered := "" }],
      unused := r.2 }
  | .copy =>
    let files := (walkListS name).filter
      fun p => !(ignoredPath C.matchGlob cfg.ignore p)
    let results := files.map
      fun p => copyDecision C.matchGlob cfg.noHash dev C.hashF p (contents p)
    { acc with
      copyFiles := acc.copyFiles ++ results.map (·.1),
      hashAssets := acc.hashAssets ++ results.filterMap (·.2) }

/-- The load phase over already sorted enumerations: build the template
registry from the sitkin directory, load the declared file sets, then
classify the root's immediate children. -/
def loadModelCore (C : Collab) (cfg : Config) (isDir : String → Bool)
    (contents : String → String) (dirListS walkListS : String → List String)
    (dev : Bool) : Except String SitkinM :=
  if "default.tmpl" ∈ dirListS "sitkin" then
    match loadFileSetsM contents isDir dirListS
        (mkRegistry contents (dirListS "sitkin")) cfg.fileSets with
    | .error e => .error e
    | .ok fss =>
      let unused0 := cfg.fileSets.foldl (fun u n => u.erase n)
        ((mkRegistry contents (dirListS "sitkin")).tail.map (·.1))
      let acc := (dirListS "").foldl
        (classStep C cfg contents walkListS
          (mkRegistry contents (dirListS "sitkin"))
          (contents "sitkin/default.tmpl") dev)
        { templateFiles := [], textTemplateFiles := [], markdownFiles := [],
          copyFiles := [], hashAssets := [], unused := unused0 }
      .ok { devMode := dev, fileSets := fss,
            templateFiles := acc.templateFiles,
            textTemplateFiles := acc.textTemplateFiles,
            markdownFiles := acc.markdownFiles,
            copyFiles := acc.copyFiles,
            hashAssets := acc.hashAssets }
  else
    .error "error loading default template"

/-- The render phase: pre-render every markdown body to its HTML
fragment, then emit every output file as a (path, bytes) pair — file-set
pages, top-level template pages, text-template outputs, top-level
markdown pages, and the copied assets. -/
def renderModel (C : Collab) (contents : String → String) (s : SitkinM) :
    List (String × String) :=
  let fileSets := s.fileSets.map fun fs =>
    { fs with files := fs.files.map fun f =>
        { f with rendered := C.renderMd (C.execTextNil f.body) } }
  let mdFiles := s.markdownFiles.map fun f =>
    { f with rendered := C.renderMd (C.execTextNil f.body) }
  let baseCtx : Ctx := { devMode := s.devMode, fileSets := fileSets, page := none }
  let fsOut := fileSets.flatMap fun fs => fs.files.map fun f =>
    ("gen/" ++ fs.name ++ "/" ++ f.name ++ ".html",
      C.minifyH (C.execHtml f.tmpl { baseCtx with page := some f }))
  let tOut := s.templateFiles.map fun p =>
    ("gen/" ++ p.1 ++ ".html", C.minifyH (C.execHtml p.2 baseCtx))
  let ttOut := s.textTemplateFiles.map fun p =>
    ("gen/" ++ p.1, C.execTextCtx p.2 baseCtx)
  let mdOut := mdFiles.map fun f =>
    ("gen/" ++ f.name ++ ".html",
      C.minifyH (C.execHtml f.tmpl { baseCtx with page := some f }))
  let cpOut := s.copyFiles.map fun cf =>
    ("gen/" ++ cf.dstPath, contents cf.srcPath)
  fsOut ++ tOut ++ ttOut ++ mdOut ++ cpOut

/-- The build over already sorted enumerations: load, then render. -/
def buildModelCore (C : Collab) (cfg : Config) (isDir : String → Bool)
    (contents : String → String) (dirListS walkListS : String → List String)
    (dev : Bool) : Except String (List (String × String)) :=
  match loadModelCore C cfg isDir contents dirListS walkListS dev with
  | .error e => .error e
  | .ok s => .ok (renderModel C contents s)

/-- The build on a raw filesystem: sort every enumeration, then build.
A failed build yields an error and no output pairs; the gen directory
mutation happens only in the render phase, which an error never
reaches. -/
def buildModel (C : Collab) (cfg : Config) (fsys : FS) (dev : Bool) :
    Except String (List (String × String)) :=
  buildModelCore C cfg fsys.isDir fsys.contents
    (fun d => sortStrings (fsys.dirList d))
    (fun p => sortStrings (fsys.walkList p)) dev

/-! ## Link rewriting

The link template helper is embedded from the source; the whole-buffer
rewriting pass over rendered HTML is not part of the sources provided
(only its expected outputs in an old test file are), so it is modelled
from the spec. -/

/-- The link template function: replace an asset path by its hashed
equivalent when the hash-asset map holds it, else return it unchanged. -/
def link (hashAssets : List (String × String)) (href : String) : String :=
  match lookupStr hashAssets href with
  | some hashed => hashed
  | none => href

/-- Modelled from the spec: a parsed link target, split into a network
host (empty for site-local links) and a path. -/
structure UrlM where
  host : String
  path : String
  deriving DecidableEq

/-- Modelled from the spec: the hyperlink-bearing elements the rewriting
pass touches — image, stylesheet-link and script elements via their
src or href attribute — plus opaque other content. -/
inductive LinkElem where
  | img (src : UrlM)
  | stylesheet (href : UrlM)
  | script (src : UrlM)
  | other (raw : String)
  deriving DecidableEq

/-- Modelled from the spec: rewrite one link target after template
execution.  A link with a network host is left untouched; a local link
whose path is not absolute is left untouched with a warning; an
absolute site-relative path is replaced by its hashed equivalent when
the hash-asset map holds it. -/
def rewriteAttr (hashAssets : List (String × String)) (u : UrlM) :
    UrlM × Option String :=
  if u.host ≠ "" then (u, none)
  else if !strStartsWith u.path "/" then
    (u, some ("Warning: not rewriting relative link " ++ u.path))
  else ({ u with path := link hashAssets u.path }, none)

/-- Modelled from the spec: rewrite one element; only image,
stylesheet-link and script elements carry a rewritable attribute. -/
def rewriteElem (hashAssets : List (String × String)) :
    LinkElem → LinkElem × Option String
  | .img u => ((rewriteAttr hashAssets u).map LinkElem.img id)
  | .stylesheet u => ((rewriteAttr hashAssets u).map LinkElem.stylesheet id)
  | .script u => ((rewriteAttr hashAssets u).map LinkElem.script id)
  | .other raw => (.other raw, none)

/-- Modelled from the spec: the whole-document rewriting pass over the
raw HTML buffer, returning the rewritten elements and the warnings. -/
def rewriteDoc (hashAssets : List (String × String)) (doc : List LinkElem) :
    List LinkElem × List String :=
  (doc.map fun e => (rewriteElem hashAssets e).1,
    doc.filterMap fun e => (rewriteElem hashAssets e).2)

/-! ## Concrete fixtures used to exercise the model -/

/-- A concrete collaborator assignment for running the model on sample
projects: templates render to their own source, markdown and
minification are the identity, and globs match by string equality. -/
def sampleCollab : Collab :=
  { hashF := fun _ => "h", matchGlob := fun g p => g == p,
    execHtml := fun src _ => src, execTextNil := id,
    execTextCtx := fun src _ => src, renderMd := id, minifyH := id }

/-- A concrete project whose posts file set holds two entries that
normalize to the same entry name a after date-prefix stripping. -/
def dupFS : FS :=
  { isDir := fun p => p == "sitkin" || p == "posts",
    contents := fun _ => "body",
    dirList := fun d =>
      if d == "sitkin" then ["default.tmpl", "posts.tmpl"]
      else if d == "posts" then ["2020-01-02.a.md", "2020-01-01.a.md"]
      else if d == "" then ["sitkin", "posts", "about.md"]
      else [],
    walkList := fun _ => [] }

/-! # Theorems -/

/-! ## C1: dev mode and asset renaming -/

/-- Claim C1 counterexample: the claim says a copy candidate discovered
in dev mode keeps its source path as destination, gets no hash-asset
mapping, and sees no link rewriting.  On the code, a dev-mode candidate
with a hashable extension is renamed with the constant NOHASH token, a
mapping is recorded, and the link helper does rewrite it. -/
theorem c1_counterexample :
    (copyDecision (fun _ _ => false) [] true (fun _ => "h") "assets/x.css" "c").1.dstPath
      = "assets/x.NOHASH.css"
    ∧ (copyDecision (fun _ _ => false) [] true (fun _ => "h") "assets/x.css" "c").1.dstPath
      ≠ "assets/x.css"
    ∧ (copyDecision (fun _ _ => false) [] true (fun _ => "h") "assets/x.css" "c").2
      = some ("/assets/x.css", "/assets/x.NOHASH.css")
    ∧ link [("/assets/x.css", "/assets/x.NOHASH.css")] "/assets/x.css"
      ≠ "/assets/x.css" := by
  refine ⟨by decide, by decide, by decide, by decide⟩

/-- Claim C1 as amended: in dev mode no content hash is computed — the
copy decision is independent of the file's contents; a candidate exempt
from hash naming keeps its source path and adds no mapping, while every
other candidate has the constant token NOHASH inserted before its
extension and a mapping is recorded in the hash-asset map (so link
rewriting does occur for it). -/
theorem c1_dev_mode_nohash_token (matchGlob : String → String → Bool)
    (noHash : List String) (hashF : String → String) (relpath c1 c2 : String) :
    copyDecision matchGlob noHash true hashF relpath c1
      = copyDecision matchGlob noHash true hashF relpath c2
    ∧ (shouldHash matchGlob noHash relpath = false →
        copyDecision matchGlob noHash true hashF relpath c1
          = (⟨relpath, relpath⟩, none))
    ∧ (shouldHash matchGlob noHash relpath = true →
        copyDecision matchGlob noHash true hashF relpath c1
          = (⟨relpath, strTrimSuffix relpath (goExt (goBase relpath)) ++ "." ++
                "NOHASH" ++ goExt (goBase relpath)⟩,
              some ("/" ++ relpath, "/" ++ (strTrimSuffix relpath
                (goExt (goBase relpath)) ++ "." ++ "NOHASH" ++
                goExt (goBase relpath))))) := by
  refine ⟨?_, ?_, ?_⟩
  · unfold copyDecision
    cases h : shouldHash matchGlob noHash relpath <;> simp [h]
  · intro h
    simp [copyDecision, h]
  · intro h
    simp [copyDecision, h]

/-- Claim C1 witness: the amended statement at the concrete dev-mode
candidate b.js. -/
theorem c1_witness :
    shouldHash (fun _ _ => false) [] "b.js" = true
    ∧ copyDecision (fun _ _ => false) [] true (fun _ => "h") "b.js" "c"
        = (⟨"b.js", "b.NOHASH.js"⟩, some ("/b.js", "/b.NOHASH.js")) := by
  have h := (c1_dev_mode_nohash_token (fun _ _ => false) [] (fun _ => "h")
    "b.js" "c" "c").2.2 (by decide)
  exact ⟨by decide, by rw [h]; decide⟩

/-! ## C6: html, extensionless and no-hash-glob files keep their names -/

/-- Claim C6: a copy candidate whose extension is .html or empty, or
which matches a configured no-hash glob, is copied to exactly its source
path and contributes no hash-asset mapping, in every mode and for every
no-hash configuration. -/
theorem c6_exempt_files_not_renamed (matchGlob : String → String → Bool)
    (noHash : List String) (devMode : Bool) (hashF : String → String)
    (relpath contents : String)
    (h : goExt relpath = ".html" ∨ goExt relpath = "" ∨
      ∃ g ∈ noHash, matchGlob g relpath = true) :
    (copyDecision matchGlob noHash devMode hashF relpath contents).1.dstPath
      = relpath
    ∧ (copyDecision matchGlob noHash devMode hashF relpath contents).2
      = none := by
  have hsh : shouldHash matchGlob noHash relpath = false := by
    unfold shouldHash
    rcases h with h | h | ⟨g, hg, hm⟩
    · simp [h]
    · simp [h]
    · simp only [Bool.and_eq_false_iff, Bool.not_eq_false', List.any_eq_true]
      exact Or.inr ⟨g, hg, hm⟩
  simp [copyDecision, hsh]

/-- Claim C6 witness: the concrete candidates a.html (extension case)
and favicon.ico under a literal no-hash glob (glob case). -/
theorem c6_witness :
    (goExt "a.html" = ".html" ∨ goExt "a.html" = "" ∨
      ∃ g ∈ ([] : List String), (fun p q => p == q) g "a.html" = true)
    ∧ (copyDecision (fun p q => p == q) [] false (fun _ => "h") "a.html" "c").1.dstPath
        = "a.html"
    ∧ (∃ g ∈ ["favicon.ico"], (fun p q => p == q) g "favicon.ico" = true)
    ∧ (copyDecision (fun p q => p == q) ["favicon.ico"] false (fun _ => "h")
        "favicon.ico" "c").2 = none := by
  refine ⟨Or.inl (by decide), ?_, ⟨"favicon.ico", by decide, by decide⟩, ?_⟩
  · exact (c6_exempt_files_not_renamed (fun p q => p == q) [] false
      (fun _ => "h") "a.html" "c" (Or.inl (by decide))).1
  · exact (c6_exempt_files_not_renamed (fun p q => p == q) ["favicon.ico"]
      false (fun _ => "h") "favicon.ico" "c"
      (Or.inr (Or.inr ⟨"favicon.ico", by decide, by decide⟩))).2

/-! ## C8: classification of top-level entries -/

/-- Claim C8 counterexample: the claim says every entry whose name
starts with the output-directory name gen is skipped; the code skips
only the exact names, so gen.css starts with gen yet is classified as a
copy candidate. -/
theorem c8_counterexample :
    strStartsWith "gen.css" "gen" = true
    ∧ classify ⟨[], [], []⟩ "gen.css" = .copy
    ∧ classify ⟨[], [], []⟩ "gen.css" ≠ .skip := by
  refine ⟨by decide, by decide, by decide⟩

/-- Claim C8 as amended: an entry is skipped when its name equals the
template-directory name sitkin, equals the output-directory name gen,
starts with a dot, or names a declared file set; otherwise the suffixes
.tmpl, .tpl and .md pick the class and everything else is a copy
candidate.  The classification is a function of the entry's name and
the configuration alone — content, size and modification time do not
enter. -/
theorem c8_classification_by_name (cfg : Config) (name : String) :
    (skipName cfg name → classify cfg name = .skip)
    ∧ (¬skipName cfg name → strEndsWith name ".tmpl" = true →
        classify cfg name = .tmpl)
    ∧ (¬skipName cfg name → strEndsWith name ".tmpl" = false →
        strEndsWith name ".tpl" = true → classify cfg name = .textTmpl)
    ∧ (¬skipName cfg name → strEndsWith name ".tmpl" = false →
        strEndsWith name ".tpl" = false → strEndsWith name ".md" = true →
        classify cfg name = .markdown)
    ∧ (¬skipName cfg name → strEndsWith name ".tmpl" = false →
        strEndsWith name ".tpl" = false → strEndsWith name ".md" = false →
        classify cfg name = .copy) := by
  refine ⟨fun h => by simp [classify, h],
    fun h h1 => by simp [classify, h, h1],
    fun h h1 h2 => by simp [classify, h, h1, h2],
    fun h h1 h2 h3 => by simp [classify, h, h1, h2, h3],
    fun h h1 h2 h3 => by simp [classify, h, h1, h2, h3]⟩

/-- Claim C8 witness: the amended statement at the concrete names gen
(skipped) and index.tmpl (template). -/
theorem c8_witness :
    skipName ⟨[], [], []⟩ "gen" ∧ classify ⟨[], [], []⟩ "gen" = .skip
    ∧ classify ⟨[], [], []⟩ "index.tmpl" = .tmpl := by
  refine ⟨by decide, (c8_classification_by_name ⟨[], [], []⟩ "gen").1 (by decide),
    (c8_classification_by_name ⟨[], [], []⟩ "index.tmpl").2.1 (by decide) (by decide)⟩

/-! ## C10: template attachment for top-level markdown files -/

/-- Claim C10: for a top-level markdown file, the load switch attaches
the registry template named like the file's base name when one exists,
marking it used by removing it from the unused set, and otherwise
silently attaches the default template; the attachment itself is total,
so a missing-template failure cannot arise for top-level markdown
files. -/
theorem c10_markdown_template_attachment (templates : List (String × String))
    (defaultTmpl : String) (unused : List String) (name : String) :
    (∀ t, lookupStr templates (strTrimSuffix name ".md") = some t →
      attachMdTemplate templates defaultTmpl unused name
        = (t, unused.erase (strTrimSuffix name ".md")))
    ∧ (lookupStr templates (strTrimSuffix name ".md") = none →
      attachMdTemplate templates defaultTmpl unused name
        = (defaultTmpl, unused)) := by
  constructor
  · intro t ht
    simp [attachMdTemplate, ht]
  · intro h
    simp [attachMdTemplate, h]

/-- Claim C10 witness: the concrete registry holding an about template,
queried for about.md (attached, marked used) and for other.md (default
attached). -/
theorem c10_witness :
    lookupStr [("default", "D"), ("about", "A")] "about" = some "A"
    ∧ attachMdTemplate [("default", "D"), ("about", "A")] "D" ["about"] "about.md"
        = ("A", [])
    ∧ lookupStr [("default", "D"), ("about", "A")] "other" = none
    ∧ attachMdTemplate [("default", "D"), ("about", "A")] "D" ["about"] "other.md"
        = ("D", ["about"]) := by
  refine ⟨by decide, ?_, by decide, ?_⟩
  · have h := (c10_markdown_template_attachment [("default", "D"), ("about", "A")]
      "D" ["about"] "about.md").1 "A" (by decide)
    rw [h]; decide
  · have h := (c10_markdown_template_attachment [("default", "D"), ("about", "A")]
      "D" ["about"] "other.md").2 (by decide)
    rw [h]

/-! ## C2: rewriting internal links to hashed assets -/

/-- Claim C2 (settled against the spec-modelled rewriting pass, with the
hash-map lookup tied to the embedded link helper): after template
execution, a src or href target with a network host is left untouched;
a local target whose path is not absolute is left untouched and warned
about; an absolute site-relative path present in the hash-asset map is
rewritten to its hashed equivalent — exactly the link helper's value —
and one absent from the map is left untouched; the document pass applies
this to every image, stylesheet-link and script element. -/
theorem c2_link_rewriting (m : List (String × String)) (u : UrlM) :
    (u.host ≠ "" → rewriteAttr m u = (u, none))
    ∧ (u.host = "" → strStartsWith u.path "/" = false →
        (rewriteAttr m u).1 = u ∧ (rewriteAttr m u).2.isSome = true)
    ∧ (u.host = "" → strStartsWith u.path "/" = true →
        ∀ hashed, lookupStr m u.path = some hashed →
          rewriteAttr m u = (⟨u.host, hashed⟩, none) ∧ link m u.path = hashed)
    ∧ (u.host = "" → strStartsWith u.path "/" = true →
        lookupStr m u.path = none → rewriteAttr m u = (u, none))
    ∧ (∀ doc, (rewriteDoc m doc).1 = doc.map fun e => (rewriteElem m e).1) := by
  refine ⟨?_, ?_, ?_, ?_, fun _ => rfl⟩
  · intro h
    simp [rewriteAttr, h]
  · intro h h1
    simp [rewriteAttr, h, h1]
  · intro h h1 hashed h2
    constructor
    · simp [rewriteAttr, h, h1, link, h2]
    · simp [link, h2]
  · intro h h1 h2
    cases u with
    | mk host path =>
      simp only at h
      subst h
      simp [rewriteAttr, h1, link, h2]

/-- Claim C2 witness: the concrete map rewriting the stylesheet link
/assets/x.css, leaving a hosted link and a relative link untouched. -/
theorem c2_witness :
    rewriteAttr [("/assets/x.css", "/assets/x.h1.css")] ⟨"", "/assets/x.css"⟩
      = (⟨"", "/assets/x.h1.css"⟩, none)
    ∧ rewriteAttr [("/assets/x.css", "/assets/x.h1.css")]
        ⟨"cdn.example.com", "/assets/x.css"⟩
      = (⟨"cdn.example.com", "/assets/x.css"⟩, none)
    ∧ (rewriteAttr [("/assets/x.css", "/assets/x.h1.css")] ⟨"", "x.css"⟩).1
      = ⟨"", "x.css"⟩
    ∧ (rewriteAttr [("/assets/x.css", "/assets/x.h1.css")] ⟨"", "x.css"⟩).2.isSome
      = true := by
  refine ⟨((c2_link_rewriting [("/assets/x.css", "/assets/x.h1.css")]
      ⟨"", "/assets/x.css"⟩).2.2.1 (by decide) (by decide) "/assets/x.h1.css"
      (by decide)).1, ?_, ?_, ?_⟩
  · exact (c2_link_rewriting [("/assets/x.css", "/assets/x.h1.css")]
      ⟨"cdn.example.com", "/assets/x.css"⟩).1 (by decide)
  · exact ((c2_link_rewriting [("/assets/x.css", "/assets/x.h1.css")]
      ⟨"", "x.css"⟩).2.1 (by decide) (by decide)).1
  · exact ((c2_link_rewriting [("/assets/x.css", "/assets/x.h1.css")]
      ⟨"", "x.css"⟩).2.1 (by decide) (by decide)).2

/-! ## C4: the metadata splitter -/

/-- If a pattern occurs nowhere in c :: l, it occurs nowhere in l. -/
theorem hasSubstr_cons_false {c : Char} {l pat : List Char}
    (h : hasSubstr (c :: l) pat = false) : hasSubstr l pat = false := by
  unfold hasSubstr at h ⊢
  rw [idxOf] at h
  by_cases hp : pat.isPrefixOf (c :: l) = true
  · rw [if_pos hp] at h
    simp at h
  · rw [if_neg hp] at h
    simpa using h

/-- Any two-or-fewer-character prefix of the closing marker agrees with
the corresponding prefix of its first two characters. -/
theorem take_endMarker_eq (k : Nat) (hk : k ≤ 2) :
    endMarker.take k = List.take k ['-', '-'] := by
  interval_cases k <;> rfl

/-- Key index computation: when the closing marker occurs nowhere in
json extended by the marker's first two characters (so no occurrence
can start inside json), its first occurrence in json followed by the
marker is exactly at the end of json. -/
theorem idxOf_marker (json tail : List Char)
    (h : hasSubstr (json ++ ['-', '-']) endMarker = false) :
    idxOf (json ++ (endMarker ++ tail)) endMarker = some json.length := by
  induction json with
  | nil =>
    have hp : endMarker.isPrefixOf ('-' :: ('-' :: '>' :: tail)) = true :=
      List.isPrefixOf_iff_prefix.mpr (List.prefix_append endMarker tail)
    show idxOf ('-' :: ('-' :: '>' :: tail)) endMarker = some 0
    rw [idxOf, if_pos hp]
  | cons c js ih =>
    have hem : endMarker.length = 3 := rfl
    have hlen : 3 - (c :: js).length ≤ 2 := by
      simp only [List.length_cons]
      omega
    cases hpre : endMarker.isPrefixOf ((c :: js) ++ (endMarker ++ tail)) with
    | true =>
      exfalso
      have hpfx : endMarker <+: (c :: js) ++ (endMarker ++ tail) :=
        List.isPrefixOf_iff_prefix.mp hpre
      have htake : endMarker = ((c :: js) ++ (endMarker ++ tail)).take 3 :=
        List.prefix_iff_eq_take.mp hpfx
      have h1 : ((c :: js) ++ (endMarker ++ tail)).take 3
          = (c :: js).take 3 ++ (endMarker ++ tail).take (3 - (c :: js).length) :=
        List.take_append_eq_append_take
      have h2 : (endMarker ++ tail).take (3 - (c :: js).length)
          = endMarker.take (3 - (c :: js).length) :=
        List.take_append_of_le_length (by omega)
      have h3 : ((c :: js) ++ ['-', '-']).take 3
          = (c :: js).take 3 ++ List.take (3 - (c :: js).length) ['-', '-'] :=
        List.take_append_eq_append_take
      have heq : endMarker = ((c :: js) ++ ['-', '-']).take 3 := by
        rw [h3, ← take_endMarker_eq _ hlen, ← h2, ← h1]
        exact htake
      have hocc : endMarker <+: (c :: js) ++ ['-', '-'] :=
        List.prefix_iff_eq_take.mpr heq
      have hoccB : endMarker.isPrefixOf (c :: (js ++ ['-', '-'])) = true :=
        List.isPrefixOf_iff_prefix.mpr hocc
      have htrue : hasSubstr ((c :: js) ++ ['-', '-']) endMarker = true := by
        unfold hasSubstr
        show (idxOf (c :: (js ++ ['-', '-'])) endMarker).isSome = true
        rw [idxOf, if_pos hoccB]
        rfl
      rw [htrue] at h
      exact Bool.true_eq_false.mp h
    | false =>
      have h' : hasSubstr (js ++ ['-', '-']) endMarker = false :=
        hasSubstr_cons_false (c := c) (l := js ++ ['-', '-']) h
      have hpre' : endMarker.isPrefixOf (c :: (js ++ (endMarker ++ tail))) = false :=
        hpre
      show idxOf (c :: (js ++ (endMarker ++ tail))) endMarker = some (js.length + 1)
      rw [idxOf, if_neg (by rw [hpre']; exact Bool.false_ne_true), ih h']
      rfl

/-- The empty-strip lemma: without a leading newline nothing is
stripped. -/
theorem stripLeadingNewline_of_no_newline (l : List Char)
    (h : l.head? ≠ some '\n') : stripLeadingNewline l = l := by
  unfold stripLeadingNewline
  split
  · exact absurd rfl h
  · rfl

/-- Claim C4 counterexample: the claim's example bytes place a space
between the closing marker and the newline; since the splitter strips
only a newline standing immediately after the marker, the body keeps
the space and the newline and is not the bytes Body. -/
theorem c4_counterexample :
    splitMetadata (beginMarker ++ ("\x7b\"title\":\"X\"\x7d").data ++
        endMarker ++ (" \nBody").data)
      = .ok (some ("\x7b\"title\":\"X\"\x7d").data, (" \nBody").data)
    ∧ (" \nBody").data ≠ ("Body").data := by
  exact ⟨rfl, by decide⟩

/-- Claim C4 as amended: with no byte between the closing marker and
the newline, a file of the form open-marker, metadata text, close
marker, newline, body splits into exactly that metadata text and that
body; when no newline immediately follows the closing marker nothing
more is stripped; and a file that does not begin with the opening
marker is returned whole as body with no metadata.  (The hypothesis
rules out a closing marker occurring at or before the end of the
metadata text, which would end the metadata early.) -/
theorem c4_metadata_splitting (json body : List Char)
    (h : hasSubstr (json ++ ['-', '-']) endMarker = false) :
    splitMetadata (beginMarker ++ (json ++ (endMarker ++ '\n' :: body)))
      = .ok (some json, body)
    ∧ (body.head? ≠ some '\n' →
        splitMetadata (beginMarker ++ (json ++ (endMarker ++ body)))
          = .ok (some json, body))
    ∧ (∀ b, beginMarker.isPrefixOf b = false →
        splitMetadata b = .ok (none, b)) := by
  refine ⟨?_, ?_, ?_⟩
  · have hbp : beginMarker.isPrefixOf
        (beginMarker ++ (json ++ (endMarker ++ '\n' :: body))) = true :=
      List.isPrefixOf_iff_prefix.mpr (List.prefix_append _ _)
    have hdrop : (json ++ (endMarker ++ '\n' :: body)).drop
        (json.length + endMarker.length) = '\n' :: body := by
      rw [← List.append_assoc]
      exact List.drop_left' (List.length_append _ _)
    unfold splitMetadata
    rw [if_pos hbp, List.drop_left, idxOf_marker json ('\n' :: body) h]
    simp only [List.take_left, hdrop]
    rfl
  · intro hb

    have hbp : beginMarker.isPrefixOf
        (beginMarker ++ (json ++ (endMarker ++ body))) = true :=
      List.isPrefixOf_iff_prefix.mpr (List.prefix_append _ _)
    have hdrop : (json ++ (endMarker ++ body)).drop
        (json.length + endMarker.length) = body := by
      rw [← List.append_assoc]
      exact List.drop_left' (List.length_append _ _)
    unfold splitMetadata
    rw [if_pos hbp, List.drop_left, idxOf_marker json body h]
    simp only [List.take_left, hdrop]
    rw [stripLeadingNewline_of_no_newline body hb]
  · intro b hb
    unfold splitMetadata
    rw [if_neg (by simp [hb])]

/-- Claim C4 witness: the amended statement at the claim's metadata
text with the newline directly after the closing marker, plus the
no-marker case on plain bytes. -/
theorem c4_witness :
    hasSubstr (("\x7b\"title\":\"X\"\x7d").data ++ ['-', '-']) endMarker = false
    ∧ splitMetadata (beginMarker ++ (("\x7b\"title\":\"X\"\x7d").data ++
        (endMarker ++ '\n' :: ("Body").data)))
      = .ok (some ("\x7b\"title\":\"X\"\x7d").data, ("Body").data)
    ∧ splitMetadata (("Body").data) = .ok (none, ("Body").data) := by
  refine ⟨by decide, (c4_metadata_splitting _ _ (by decide)).1,
    (c4_metadata_splitting ("x").data ("y").data (by decide)).2.2
      (("Body").data) (by decide)⟩

/-! ## C7: file-set entries sorted newest first -/

/-- Claim C7: a successfully loaded file set's entry list is sorted in
non-increasing order of the entries' parsed dates (ties left
unconstrained, as the claim leaves them unspecified). -/
theorem c7_file_set_sorted_newest_first (contents : String → String)
    (dirPath tmplSrc : String) (ents : List DirEnt) (fs : FileSetM)
    (h : (loadFileSet contents dirPath tmplSrc ents).2 = .ok fs) :
    fs.files.Sorted entryGE := by
  unfold loadFileSet at h
  cases h2 : (fsFold contents dirPath tmplSrc ents).2 with
  | error e =>
    rw [h2] at h
    exact absurd h (by simp [Except.map])
  | ok p =>
    rw [h2] at h
    simp only [Except.map] at h
    cases h
    exact List.sorted_insertionSort entryGE p.2

/-- Claim C7 witness: the concrete three-entry file set loads to the
explicitly listed model, whose files the theorem shows sorted; the
dates come out newest first. -/
theorem c7_witness :
    (loadFileSet (fun _ => "b") "posts" "T"
      [⟨"2020-01-01.a.md", false⟩, ⟨"2020-01-03.b.md", false⟩,
        ⟨"2020-01-02.c.md", false⟩]).2
      = .ok { name := "posts",
              files := [{ name := "b", tmpl := "T", meta := none, body := "b",
                          dateKey := 20200103, rendered := "" },
                        { name := "c", tmpl := "T", meta := none, body := "b",
                          dateKey := 20200102, rendered := "" },
                        { name := "a", tmpl := "T", meta := none, body := "b",
                          dateKey := 20200101, rendered := "" }],
              lastDate := 20200103 }
    ∧ List.Sorted entryGE
        [{ name := "b", tmpl := "T", meta := none, body := "b",
           dateKey := 20200103, rendered := "" },
         { name := "c", tmpl := "T", meta := none, body := "b",
           dateKey := 20200102, rendered := "" },
         { name := "a", tmpl := "T", meta := none, body := "b",
           dateKey := 20200101, rendered := "" }] := by
  constructor
  · rfl
  · exact c7_file_set_sorted_newest_first (fun _ => "b") "posts" "T"
      [⟨"2020-01-01.a.md", false⟩, ⟨"2020-01-03.b.md", false⟩,
        ⟨"2020-01-02.c.md", false⟩] _ rfl

/-! ## The loadFileSet loop: helper lemmas -/

/-- A failed state passes through one step untouched. -/
theorem fsStep_error (contents : String → String) (dirPath tmplSrc : String)
    (w : List String) (s : String) (e : DirEnt) :
    fsStep contents dirPath tmplSrc (w, .error s) e = (w, .error s) := rfl

/-- A failed state passes through the whole loop untouched. -/
theorem fsFold_from_error (contents : String → String) (dirPath tmplSrc : String)
    (ents : List DirEnt) (w : List String) (s : String) :
    ents.foldl (fsStep contents dirPath tmplSrc) (w, .error s) = (w, .error s) := by
  induction ents with
  | nil => rfl
  | cons e rest ih =>
    rw [List.foldl_cons, fsStep_error]
    exact ih

/-- A stray entry adds its warning and leaves the state otherwise
unchanged. -/
theorem fsStep_skip (contents : String → String) (dirPath tmplSrc : String)
    (w ns : List String) (fls : List MDFile) (e : DirEnt)
    (h : entInfo e = none) :
    fsStep contents dirPath tmplSrc (w, .ok (ns, fls)) e
      = (w ++ [skipWarning dirPath e], .ok (ns, fls)) := by
  simp [fsStep, h]

/-- Each step only appends to the warning list, and its resulting state
component does not depend on the warnings accumulated so far. -/
theorem fsStep_warn_shape (contents : String → String) (dirPath tmplSrc : String)
    (w : List String) (r : Except String (List String × List MDFile)) (e : DirEnt) :
    ∃ tl, fsStep contents dirPath tmplSrc (w, r) e
        = (w ++ tl, (fsStep contents dirPath tmplSrc (w, r) e).2)
      ∧ (fsStep contents dirPath tmplSrc (w, r) e).2
        = (fsStep contents dirPath tmplSrc ([], r) e).2 := by
  cases r with
  | error s => exact ⟨[], by simp [fsStep_error]⟩
  | ok p =>
    obtain ⟨ns, fls⟩ := p
    cases hinfo : entInfo e with
    | none => exact ⟨[skipWarning dirPath e], by simp [fsStep, hinfo]⟩
    | some nk =>
      obtain ⟨nm, key⟩ := nk
      cases hmeta : splitMetadata (contents (joinDir dirPath e.name)).data with
      | error err => exact ⟨[], by simp [fsStep, hinfo, hmeta]⟩
      | ok mb =>
        obtain ⟨meta, body⟩ := mb
        by_cases hmem : nm ∈ ns
        · exact ⟨[], by simp [fsStep, hinfo, hmeta, hmem]⟩
        · exact ⟨[], by simp [fsStep, hinfo, hmeta, hmem]⟩

/-- The loop's resulting state component does not depend on the
warnings accumulated before it. -/
theorem fsFold_snd_indep (contents : String → String) (dirPath tmplSrc : String)
    (ents : List DirEnt) :
    ∀ (w1 w2 : List String) (r : Except String (List String × List MDFile)),
      (ents.foldl (fsStep contents dirPath tmplSrc) (w1, r)).2
        = (ents.foldl (fsStep contents dirPath tmplSrc) (w2, r)).2 := by
  induction ents with
  | nil => intro w1 w2 r; rfl
  | cons e rest ih =>
    intro w1 w2 r
    rw [List.foldl_cons, List.foldl_cons]
    obtain ⟨tl1, h1, h1s⟩ := fsStep_warn_shape contents dirPath tmplSrc w1 r e
    obtain ⟨tl2, h2, h2s⟩ := fsStep_warn_shape contents dirPath tmplSrc w2 r e
    rw [h1, h2, h1s, h2s]
    exact ih (w1 ++ tl1) (w2 ++ tl2) _

/-- Warnings already logged stay in the list through the rest of the
loop. -/
theorem fsFold_warn_mono (contents : String → String) (dirPath tmplSrc : String)
    (ents : List DirEnt) :
    ∀ (st : FSState) (x : String), x ∈ st.1 →
      x ∈ (ents.foldl (fsStep contents dirPath tmplSrc) st).1 := by
  induction ents with
  | nil => intro st x hx; exact hx
  | cons e rest ih =>
    intro st x hx
    obtain ⟨w, r⟩ := st
    rw [List.foldl_cons]
    obtain ⟨tl, h1, _⟩ := fsStep_warn_shape contents dirPath tmplSrc w r e
    rw [h1]
    exact ih _ x (List.mem_append_left tl hx)

/-! ## C9: strays in a file-set directory are warned about and skipped -/

/-- Claim C9: an entry in a file-set directory failing the naming
pattern (a subdirectory, a non-md file, a missing date part, or an
unparseable date) never makes the load fail or changes the loaded set —
the result equals the result without that entry — and, whenever the
loop reaches it without a prior fatal error, its warning is logged. -/
theorem c9_stray_files_skipped (contents : String → String)
    (dirPath tmplSrc : String) (pre post : List DirEnt) (e : DirEnt)
    (h : entInfo e = none) :
    (loadFileSet contents dirPath tmplSrc (pre ++ e :: post)).2
      = (loadFileSet contents dirPath tmplSrc (pre ++ post)).2
    ∧ ((fsFold contents dirPath tmplSrc pre).2.isOk = true →
        skipWarning dirPath e
          ∈ (loadFileSet contents dirPath tmplSrc (pre ++ e :: post)).1) := by
  constructor
  · have hfold : (fsFold contents dirPath tmplSrc (pre ++ e :: post)).2
        = (fsFold contents dirPath tmplSrc (pre ++ post)).2 := by
      unfold fsFold
      rw [List.foldl_append, List.foldl_append, List.foldl_cons]
      cases hst : List.foldl (fsStep contents dirPath tmplSrc)
        ([], .ok ([], [])) pre with
      | mk w r =>
        cases r with
        | error s =>
          rw [fsStep_error]
        | ok p =>
          obtain ⟨ns, fls⟩ := p
          rw [fsStep_skip contents dirPath tmplSrc w ns fls e h]
          exact fsFold_snd_indep contents dirPath tmplSrc post _ _ _
    simp only [loadFileSet]
    rw [hfold]
  · intro hok
    show skipWarning dirPath e
      ∈ (fsFold contents dirPath tmplSrc (pre ++ e :: post)).1
    unfold fsFold at hok ⊢
    rw [List.foldl_append, List.foldl_cons]
    cases hst : List.foldl (fsStep contents dirPath tmplSrc)
      ([], .ok ([], [])) pre with
    | mk w r =>
      rw [hst] at hok
      cases r with
      | error s => simp [Except.isOk, Except.toBool] at hok
      | ok p =>
        obtain ⟨ns, fls⟩ := p
        rw [fsStep_skip contents dirPath tmplSrc w ns fls e h]
        exact fsFold_warn_mono contents dirPath tmplSrc post _ _ (by simp)

/-- Claim C9 witness: a stray junk.txt between two valid entries leaves
the loaded set unchanged and is warned about. -/
theorem c9_witness :
    entInfo ⟨"junk.txt", false⟩ = none
    ∧ (loadFileSet (fun _ => "b") "posts" "T"
        ([⟨"2020-01-01.a.md", false⟩] ++ ⟨"junk.txt", false⟩ ::
          [⟨"2020-01-02.c.md", false⟩])).2
      = (loadFileSet (fun _ => "b") "posts" "T"
        ([⟨"2020-01-01.a.md", false⟩] ++ [⟨"2020-01-02.c.md", false⟩])).2
    ∧ ((fsFold (fun _ => "b") "posts" "T" [⟨"2020-01-01.a.md", false⟩]).2.isOk = true →
        skipWarning "posts" ⟨"junk.txt", false⟩
          ∈ (loadFileSet (fun _ => "b") "posts" "T"
            ([⟨"2020-01-01.a.md", false⟩] ++ ⟨"junk.txt", false⟩ ::
              [⟨"2020-01-02.c.md", false⟩])).1) := by
  have h := c9_stray_files_skipped (fun _ => "b") "posts" "T"
    [⟨"2020-01-01.a.md", false⟩] [⟨"2020-01-02.c.md", false⟩]
    ⟨"junk.txt", false⟩ (by decide)
  exact ⟨by decide, h.1, h.2⟩

/-! ## C5: duplicate entry names abort the build -/

/-- A valid entry whose metadata fails turns the state into the wrapped
metadata error. -/
theorem fsStep_meta_error (contents : String → String) (dirPath tmplSrc : String)
    (w ns : List String) (fls : List MDFile) (e : DirEnt) (nm : String)
    (key : Nat) (err : String) (h1 : entInfo e = some (nm, key))
    (h2 : splitMetadata (contents (joinDir dirPath e.name)).data = .error err) :
    fsStep contents dirPath tmplSrc (w, .ok (ns, fls)) e
      = (w, .error (mdLoadErr (joinDir dirPath e.name) err)) := by
  simp [fsStep, h1, h2]

/-- A valid entry whose name was already seen turns the state into the
duplicate error. -/
theorem fsStep_dup (contents : String → String) (dirPath tmplSrc : String)
    (w ns : List String) (fls : List MDFile) (e : DirEnt) (nm : String)
    (key : Nat) (meta : Option (List Char)) (body : List Char)
    (h1 : entInfo e = some (nm, key))
    (h2 : splitMetadata (contents (joinDir dirPath e.name)).data = .ok (meta, body))
    (h3 : nm ∈ ns) :
    fsStep contents dirPath tmplSrc (w, .ok (ns, fls)) e
      = (w, .error (dupErr nm)) := by
  simp [fsStep, h1, h2, h3]

/-- A valid fresh entry is appended to the collected names and files. -/
theorem fsStep_add (contents : String → String) (dirPath tmplSrc : String)
    (w ns : List String) (fls : List MDFile) (e : DirEnt) (nm : String)
    (key : Nat) (meta : Option (List Char)) (body : List Char)
    (h1 : entInfo e = some (nm, key))
    (h2 : splitMetadata (contents (joinDir dirPath e.name)).data = .ok (meta, body))
    (h3 : nm ∉ ns) :
    fsStep contents dirPath tmplSrc (w, .ok (ns, fls)) e
      = (w, .ok (ns ++ [nm],
          fls ++ [{ name := nm, tmpl := tmplSrc,
                    meta := meta.map fun l => (⟨l⟩ : String),
                    body := ⟨body⟩, dateKey := key, rendered := "" }])) := by
  simp [fsStep, h1, h2, h3]

/-- When the loop ends without an error, the collected names are the
valid entries' names in order, and they stay duplicate-free. -/
theorem fsFold_ok_names (contents : String → String) (dirPath tmplSrc : String) :
    ∀ (ents : List DirEnt) (w ns : List String) (fls : List MDFile)
      (ns' : List String) (fls' : List MDFile),
      (ents.foldl (fsStep contents dirPath tmplSrc) (w, .ok (ns, fls))).2
        = .ok (ns', fls') →
      ns' = ns ++ ents.filterMap (fun e => (entInfo e).map (·.1))
      ∧ (ns.Nodup → ns'.Nodup) := by
  intro ents
  induction ents with
  | nil =>
    intro w ns fls ns' fls' h
    simp only [List.foldl_nil] at h
    simp only [Except.ok.injEq, Prod.mk.injEq] at h
    obtain ⟨h1, h2⟩ := h
    subst h1
    simp
  | cons e rest ih =>
    intro w ns fls ns' fls' h
    rw [List.foldl_cons] at h
    cases hinfo : entInfo e with
    | none =>
      rw [fsStep_skip contents dirPath tmplSrc w ns fls e hinfo] at h
      obtain ⟨h1, h2⟩ := ih _ _ _ _ _ h
      refine ⟨?_, h2⟩
      rw [h1, List.filterMap_cons]
      simp [hinfo]
    | some nk =>
      obtain ⟨nm, key⟩ := nk
      cases hmeta : splitMetadata (contents (joinDir dirPath e.name)).data with
      | error err =>
        rw [fsStep_meta_error contents dirPath tmplSrc w ns fls e nm key err
          hinfo hmeta] at h
        rw [fsFold_from_error] at h
        exact absurd h (by simp)
      | ok mb =>
        obtain ⟨meta, body⟩ := mb
        by_cases hmem : nm ∈ ns
        · rw [fsStep_dup contents dirPath tmplSrc w ns fls e nm key meta body
            hinfo hmeta hmem] at h
          rw [fsFold_from_error] at h
          exact absurd h (by simp)
        · rw [fsStep_add contents dirPath tmplSrc w ns fls e nm key meta body
            hinfo hmeta hmem] at h
          obtain ⟨h1, h2⟩ := ih _ _ _ _ _ h
          constructor
          · rw [h1, List.filterMap_cons]
            simp [hinfo]
          · intro hnd
            apply h2
            simp [List.nodup_append, hnd, hmem]

/-- When every valid entry's metadata splits cleanly, the only error
the loop can produce is the duplicate-name error. -/
theorem fsFold_error_is_dup (contents : String → String) (dirPath tmplSrc : String) :
    ∀ (ents : List DirEnt) (w ns : List String) (fls : List MDFile) (err : String),
      (∀ e ∈ ents, metaOk contents dirPath e) →
      (ents.foldl (fsStep contents dirPath tmplSrc) (w, .ok (ns, fls))).2
        = .error err →
      ∃ nm, err = dupErr nm := by
  intro ents
  induction ents with
  | nil =>
    intro w ns fls err _ h
    simp at h
  | cons e rest ih =>
    intro w ns fls err hmetas h
    rw [List.foldl_cons] at h
    cases hinfo : entInfo e with
    | none =>
      rw [fsStep_skip contents dirPath tmplSrc w ns fls e hinfo] at h
      exact ih _ _ _ _ (fun x hx => hmetas x (List.mem_cons_of_mem e hx)) h
    | some nk =>
      obtain ⟨nm, key⟩ := nk
      have hok := hmetas e (List.mem_cons_self e rest) (by rw [hinfo]; rfl)
      cases hmeta : splitMetadata (contents (joinDir dirPath e.name)).data with
      | error err2 =>
        rw [hmeta] at hok
        simp [Except.isOk, Except.toBool] at hok
      | ok mb =>
        obtain ⟨meta, body⟩ := mb
        by_cases hmem : nm ∈ ns
        · rw [fsStep_dup contents dirPath tmplSrc w ns fls e nm key meta body
            hinfo hmeta hmem] at h
          rw [fsFold_from_error] at h
          simp only [Prod.snd, Except.error.injEq] at h
          exact ⟨nm, h.symm⟩
        · rw [fsStep_add contents dirPath tmplSrc w ns fls e nm key meta body
            hinfo hmeta hmem] at h
          exact ih _ _ _ _ (fun x hx => hmetas x (List.mem_cons_of_mem e hx)) h

/-- A file-set directory holding two pattern-valid entries with the
same entry name fails to load, with a duplicate-name error. -/
theorem loadFileSet_duplicate (contents : String → String)
    (dirPath tmplSrc : String) (l1 l2 l3 : List DirEnt) (e1 e2 : DirEnt)
    (nm : String) (k1 k2 : Nat)
    (he1 : entInfo e1 = some (nm, k1)) (he2 : entInfo e2 = some (nm, k2))
    (hmetas : ∀ e ∈ l1 ++ e1 :: (l2 ++ e2 :: l3), metaOk contents dirPath e) :
    ∃ nm', (loadFileSet contents dirPath tmplSrc (l1 ++ e1 :: (l2 ++ e2 :: l3))).2
      = .error (dupErr nm') := by
  cases hr : (fsFold contents dirPath tmplSrc (l1 ++ e1 :: (l2 ++ e2 :: l3))).2 with
  | ok p =>
    exfalso
    obtain ⟨ns', fls'⟩ := p
    obtain ⟨h1, h2⟩ := fsFold_ok_names contents dirPath tmplSrc
      (l1 ++ e1 :: (l2 ++ e2 :: l3)) [] [] [] ns' fls' hr
    have hnd := h2 List.nodup_nil
    rw [h1] at hnd
    simp only [List.nil_append, List.filterMap_append, List.filterMap_cons,
      he1, he2, Option.map_some'] at hnd
    have hnd2 := hnd.of_append_right
    rw [List.nodup_cons] at hnd2
    exact hnd2.1 (by simp)
  | error err =>
    obtain ⟨nm', hnm⟩ := fsFold_error_is_dup contents dirPath tmplSrc
      (l1 ++ e1 :: (l2 ++ e2 :: l3)) [] [] [] err hmetas hr
    refine ⟨nm', ?_⟩
    simp only [loadFileSet]
    rw [hr, hnm]
    rfl

/-- The build over sorted enumerations fails with the duplicate error
when the first declared file set holds two same-named entries. -/
theorem buildModelCore_dup (C : Collab) (cfg : Config) (isDir : String → Bool)
    (contents : String → String) (dirListS walkListS : String → List String)
    (dev : Bool) (fsName : String) (rest : List String) (tsrc : String)
    (l1 l2 l3 : List DirEnt) (e1 e2 : DirEnt) (nm : String) (k1 k2 : Nat)
    (hfs : cfg.fileSets = fsName :: rest)
    (hdef : "default.tmpl" ∈ dirListS "sitkin")
    (hreg : lookupStr (mkRegistry contents (dirListS "sitkin")) fsName = some tsrc)
    (hents : mkEnts isDir (dirListS fsName) fsName = l1 ++ e1 :: (l2 ++ e2 :: l3))
    (he1 : entInfo e1 = some (nm, k1)) (he2 : entInfo e2 = some (nm, k2))
    (hmetas : ∀ e ∈ l1 ++ e1 :: (l2 ++ e2 :: l3), metaOk contents fsName e) :
    ∃ nm', buildModelCore C cfg isDir contents dirListS walkListS dev
      = .error (dupErr nm') := by
  obtain ⟨nm', hdup⟩ := loadFileSet_duplicate contents fsName tsrc l1 l2 l3
    e1 e2 nm k1 k2 he1 he2 hmetas
  have hlf : loadFileSetsM contents isDir dirListS
      (mkRegistry contents (dirListS "sitkin")) (fsName :: rest)
      = .error (dupErr nm') := by
    unfold loadFileSetsM
    rw [hreg]
    simp only [hents, hdup]
  have hlm : loadModelCore C cfg isDir contents dirListS walkListS dev
      = .error (dupErr nm') := by
    unfold loadModelCore
    rw [if_pos hdef, hfs, hlf]
  refine ⟨nm', ?_⟩
  unfold buildModelCore
  rw [hlm]

/-- Claim C5: a file-set directory with two entries normalizing to the
same entry name after date-prefix stripping makes the whole build fail
with a duplicate-name error; the failed Except carries no output pairs,
and the render phase — the only phase that mutates the output
directory — is never reached. -/
theorem c5_duplicate_entry_aborts_build (C : Collab) (cfg : Config) (fsys : FS)
    (dev : Bool) (fsName : String) (rest : List String) (tsrc : String)
    (l1 l2 l3 : List DirEnt) (e1 e2 : DirEnt) (nm : String) (k1 k2 : Nat)
    (hfs : cfg.fileSets = fsName :: rest)
    (hdef : "default.tmpl" ∈ sortStrings (fsys.dirList "sitkin"))
    (hreg : lookupStr (mkRegistry fsys.contents
      (sortStrings (fsys.dirList "sitkin"))) fsName = some tsrc)
    (hents : mkEnts fsys.isDir (sortStrings (fsys.dirList fsName)) fsName
      = l1 ++ e1 :: (l2 ++ e2 :: l3))
    (he1 : entInfo e1 = some (nm, k1)) (he2 : entInfo e2 = some (nm, k2))
    (hmetas : ∀ e ∈ l1 ++ e1 :: (l2 ++ e2 :: l3), metaOk fsys.contents fsName e) :
    ∃ nm', buildModel C cfg fsys dev = .error (dupErr nm') :=
  buildModelCore_dup C cfg fsys.isDir fsys.contents
    (fun d => sortStrings (fsys.dirList d)) (fun p => sortStrings (fsys.walkList p))
    dev fsName rest tsrc l1 l2 l3 e1 e2 nm k1 k2 hfs hdef hreg hents he1 he2 hmetas

/-- Claim C5 witness: the concrete project whose posts directory holds
2020-01-01.a.md and 2020-01-02.a.md fails to build with a
duplicate-name error. -/
theorem c5_witness :
    entInfo ⟨"2020-01-01.a.md", false⟩ = some ("a", 20200101)
    ∧ entInfo ⟨"2020-01-02.a.md", false⟩ = some ("a", 20200102)
    ∧ ∃ nm', buildModel sampleCollab ⟨[], [], ["posts"]⟩ dupFS false
        = .error (dupErr nm') :=
  ⟨by decide, by decide,
    c5_duplicate_entry_aborts_build sampleCollab ⟨[], [], ["posts"]⟩ dupFS false
      "posts" [] "body" [] [] [] ⟨"2020-01-01.a.md", false⟩
      ⟨"2020-01-02.a.md", false⟩ "a" 20200101 20200102 rfl (by decide)
      (by decide) (by decide) (by decide) (by decide) (by decide)⟩

/-! ## C3: a build is a function of the project inputs and dev mode -/

/-- The name order is total. -/
theorem dataLeB_total : ∀ a b : List Char, dataLeB a b = true ∨ dataLeB b a = true := by
  intro a
  induction a with
  | nil => intro b; left; rfl
  | cons x as ih =>
    intro b
    cases b with
    | nil => right; rfl
    | cons y bs =>
      rcases lt_trichotomy x y with h | h | h
      · left; simp [dataLeB, h]
      · subst h
        rcases ih bs with h2 | h2
        · left; simp [dataLeB, lt_irrefl, h2]
        · right; simp [dataLeB, lt_irrefl, h2]
      · right; simp [dataLeB, h]

/-- The name order is transitive. -/
theorem dataLeB_trans : ∀ a b c : List Char, dataLeB a b = true →
    dataLeB b c = true → dataLeB a c = true := by
  intro a
  induction a with
  | nil => intro b c _ _; rfl
  | cons x as ih =>
    intro b c hab hbc
    cases b with
    | nil => simp [dataLeB] at hab
    | cons y bs =>
      cases c with
      | nil => simp [dataLeB] at hbc
      | cons z cs =>
        rcases lt_trichotomy x y with hxy | hxy | hxy
        · rcases lt_trichotomy y z with hyz | hyz | hyz
          · simp [dataLeB, lt_trans hxy hyz]
          · subst hyz; simp [dataLeB, hxy]
          · simp [dataLeB, lt_asymm hyz, hyz] at hbc
        · subst hxy
          rcases lt_trichotomy x z with hxz | hxz | hxz
          · simp [dataLeB, hxz]
          · subst hxz
            simp only [dataLeB, lt_irrefl, if_neg (lt_irrefl x), if_false] at hab hbc ⊢
            exact ih bs cs hab hbc
          · simp [dataLeB, lt_asymm hxz, hxz] at hbc
        · simp [dataLeB, lt_asymm hxy, hxy] at hab

/-- The name order is antisymmetric. -/
theorem dataLeB_antisymm : ∀ a b : List Char, dataLeB a b = true →
    dataLeB b a = true → a = b := by
  intro a
  induction a with
  | nil =>
    intro b _ hba
    cases b with
    | nil => rfl
    | cons y bs => simp [dataLeB] at hba
  | cons x as ih =>
    intro b hab hba
    cases b with
    | nil => simp [dataLeB] at hab
    | cons y bs =>
      rcases lt_trichotomy x y with h | h | h
      · simp [dataLeB, lt_asymm h, h] at hba
      · subst h
        simp only [dataLeB, lt_irrefl, if_neg (lt_irrefl x), if_false] at hab hba
        rw [ih bs hab hba]
      · simp [dataLeB, lt_asymm h, h] at hab

/-- Sorting a directory enumeration makes its order irrelevant: any two
enumerations of the same names sort identically. -/
theorem sortStrings_perm_eq {l1 l2 : List String} (h : List.Perm l1 l2) :
    sortStrings l1 = sortStrings l2 := by
  have htot : IsTotal String strLe := ⟨fun a b => dataLeB_total a.data b.data⟩
  have htr : IsTrans String strLe := ⟨fun a b c => dataLeB_trans a.data b.data c.data⟩
  have hanti : IsAntisymm String strLe := ⟨fun a b h1 h2 => by
    obtain ⟨da⟩ := a
    obtain ⟨db⟩ := b
    exact congrArg String.mk (dataLeB_antisymm da db h1 h2)⟩
  exact List.eq_of_perm_of_sorted
    ((List.perm_insertionSort strLe l1).trans
      (h.trans (List.perm_insertionSort strLe l2).symm))
    (List.sorted_insertionSort strLe l1)
    (List.sorted_insertionSort strLe l2)

/-- Claim C3: the build output is a deterministic function of the
project inputs plus the dev-mode flag.  The model is a pure function of
the filesystem and the flag, and the only run-to-run variation in the
inputs — the raw order in which the OS enumerates directories — cannot
change the output, because every enumeration is sorted before use
(os.ReadDir, filepath.Glob and filepath.Walk all sort); so two runs over
the same files produce identical output trees. -/
theorem c3_build_deterministic (C : Collab) (cfg : Config) (dev : Bool)
    (isDir : String → Bool) (contents : String → String)
    (dl1 dl2 wl1 wl2 : String → List String)
    (hdl : ∀ d, List.Perm (dl1 d) (dl2 d))
    (hwl : ∀ p, List.Perm (wl1 p) (wl2 p)) :
    buildModel C cfg ⟨isDir, contents, dl1, wl1⟩ dev
      = buildModel C cfg ⟨isDir, contents, dl2, wl2⟩ dev := by
  show buildModelCore C cfg isDir contents
      (fun d => sortStrings (dl1 d)) (fun p => sortStrings (wl1 p)) dev
    = buildModelCore C cfg isDir contents
      (fun d => sortStrings (dl2 d)) (fun p => sortStrings (wl2 p)) dev
  rw [funext fun d => sortStrings_perm_eq (hdl d),
    funext fun p => sortStrings_perm_eq (hwl p)]

/-- Claim C3 witness: the sample project built from two different
enumeration orders of the same directories yields identical outputs. -/
theorem c3_witness :
    (∀ d, List.Perm
      ((fun d => if d == "" then ["b.md", "a.md"] else ([] : List String)) d)
      ((fun d => if d == "" then ["a.md", "b.md"] else ([] : List String)) d))
    ∧ buildModel sampleCollab ⟨[], [], []⟩
        ⟨fun _ => false, fun _ => "x",
          fun d => if d == "" then ["b.md", "a.md"] else [], fun _ => []⟩ false
      = buildModel sampleCollab ⟨[], [], []⟩
        ⟨fun _ => false, fun _ => "x",
          fun d => if d == "" then ["a.md", "b.md"] else [], fun _ => []⟩ false := by
  have hperm : ∀ d, List.Perm
      ((fun d => if d == "" then ["b.md", "a.md"] else ([] : List String)) d)
      ((fun d => if d == "" then ["a.md", "b.md"] else ([] : List String)) d) := by
    intro d
    by_cases hd : (d == "") = true
    · simp only [hd, if_true]
      exact List.Perm.swap "a.md" "b.md" []
    · simp only [Bool.not_eq_true] at hd
      simp only [hd, Bool.false_eq_true, if_false]
      exact List.Perm.refl []
  exact ⟨hperm, c3_build_deterministic sampleCollab ⟨[], [], []⟩ false
    (fun _ => false) (fun _ => "x") _ _ _ _ hperm (fun _ => List.Perm.refl [])⟩

end Sitkin
